import Mathlib

/-!
Verification of the Matrix Knowledge module packager and loader
(`packager/create_module.py`, `loader/download.py`).

The pure data transformations (`_create_embeddings_data`, `_extract_skills`,
the sources/total-observation count) are embedded directly as Lean functions.
A Python dict entity is modelled by `Entity` with `Option` fields: `none`
models an absent key, and `Option.getD` models `dict.get(key, default)`.

The effectful pipelines (`_install_module`, `download_skill`,
`create_from_memory`) are embedded as functions over explicit failure
oracles: each fallible filesystem / serialization primitive the Python code
performs (tar extraction, `json.load` of a manifest, opening and unpickling
an embeddings file, `json.dump` / `pickle.dump` writes, reading a file to
hash it) is represented by a boolean (or `Except`-valued) field telling
whether that primitive succeeds or raises.  The embedding then reproduces
the source's control flow exactly — which exceptions are caught where, what
is returned, and which scratch/destination files exist when the call ends.
-/

/-- A memory entity as passed to the packager: a Python dict with optional
keys `name`, `entityType`, `observations`.  `none` = key absent. -/
structure Entity where
  name : Option String
  entityType : Option String
  observations : Option (List String)
deriving Repr, DecidableEq

/-- One knowledge chunk produced by `_create_embeddings_data`
(`create_module.py` lines 139-144). -/
structure Chunk where
  id : Nat
  text : String
  entity : String
  type : String
deriving Repr, DecidableEq

/-- One metadata record produced by `_create_embeddings_data`
(`create_module.py` lines 146-151). -/
structure ChunkMeta where
  chunk_id : Nat
  entity_name : String
  entity_type : String
  char_count : Nat
deriving Repr, DecidableEq

/-- The embeddings payload dict: `{"chunks": [...], "metadata": [...],
"entity_map": {...}}`.  The Python dict `entity_map` is modelled as an
insertion-ordered association list with last-write-wins update. -/
structure EmbeddingsData where
  chunks : List Chunk
  metadata : List ChunkMeta
  entity_map : List (String × String)
deriving Repr, DecidableEq

/-- Python dict assignment `m[k] = v`: updates in place if the key is
present, otherwise appends (insertion order preserved). -/
def dictInsert (m : List (String × String)) (k v : String) : List (String × String) :=
  if m.any (fun p => p.1 = k) then
    m.map (fun p => if p.1 = k then (k, v) else p)
  else m ++ [(k, v)]

/-- Python `str.lower()` restricted to the ASCII case mapping. -/
def pyLower (s : String) : String := ⟨s.data.map Char.toLower⟩

/-- Python `name.lower().replace(' ', '_')` — the slug used for project and
protocol skill tags. -/
def slugify (s : String) : String :=
  ⟨(pyLower s).data.map (fun c => if c = ' ' then '_' else c)⟩

/-- Python `set.add`: no-op when the element is already present.  (Membership
is what the claims consume; we realise the set as a duplicate-free list.) -/
def setAdd (s : List String) (x : String) : List String :=
  if x ∈ s then s else s ++ [x]

/-- The loop body of `KnowledgePackager._extract_skills`
(`create_module.py` lines 105-114), one entity at a time. -/
def extract_skills_loop (skills : List String) : List Entity → List String
  | [] => skills
  | e :: rest =>
      let entity_type := e.entityType.getD ""
      let name := e.name.getD ""
      let skills' :=
        if entity_type = "Active_Project" then
          setAdd skills ("project_" ++ slugify name)
        else if entity_type = "Tool_Reference" then
          setAdd skills ("tool_" ++ pyLower name)
        else if entity_type = "System_Protocol" then
          setAdd skills ("protocol_" ++ slugify name)
        else skills
      extract_skills_loop skills' rest

/-- `KnowledgePackager._extract_skills` (`create_module.py` lines 101-116):
scans the entities, accumulating skill tags into a set. -/
def _extract_skills (entities : List Entity) : List String :=
  extract_skills_loop [] entities

/-- The skill tag a single entity contributes, if any — the per-entity
content of the `_extract_skills` if/elif chain, used to characterise the
result of the whole scan. -/
def skillOf (e : Entity) : Option String :=
  let entity_type := e.entityType.getD ""
  let name := e.name.getD ""
  if entity_type = "Active_Project" then some ("project_" ++ slugify name)
  else if entity_type = "Tool_Reference" then some ("tool_" ++ pyLower name)
  else if entity_type = "System_Protocol" then some ("protocol_" ++ slugify name)
  else none

/-- The inner observation loop of `_create_embeddings_data`
(`create_module.py` lines 138-153): one chunk and one metadata record per
observation, with the running `chunk_id`. -/
def encode_obs (entity_name entity_type : String) :
    List String → Nat → List Chunk × List ChunkMeta
  | [], _ => ([], [])
  | obs :: rest, chunk_id =>
      let (cs, ms) := encode_obs entity_name entity_type rest (chunk_id + 1)
      (⟨chunk_id, obs, entity_name, entity_type⟩ :: cs,
       ⟨chunk_id, entity_name, entity_type, obs.length⟩ :: ms)

/-- The outer entity loop of `_create_embeddings_data`
(`create_module.py` lines 133-155), threading the running chunk id and the
`entity_map` built so far. -/
def encode_entities : List Entity → Nat → List (String × String) → EmbeddingsData
  | [], _, em => ⟨[], [], em⟩
  | e :: rest, chunk_id, em =>
      let entity_name := e.name.getD "unknown"
      let entity_type := e.entityType.getD "unknown"
      let obs := e.observations.getD []
      let (cs, ms) := encode_obs entity_name entity_type obs chunk_id
      let d := encode_entities rest (chunk_id + obs.length)
                 (dictInsert em entity_name entity_type)
      ⟨cs ++ d.chunks, ms ++ d.metadata, d.entity_map⟩

/-- `KnowledgePackager._create_embeddings_data`
(`create_module.py` lines 124-157). -/
def _create_embeddings_data (entities : List Entity) : EmbeddingsData :=
  encode_entities entities 0 []

/-- `sum(len(e.get("observations", [])) for e in entities)` — the
`total_observations` field of `sources.json` (`create_module.py` line 61). -/
def total_observations (entities : List Entity) : Nat :=
  (entities.map (fun e => (e.observations.getD []).length)).sum

example : _extract_skills [⟨some "Sample", some "Tool_Reference", some ["x", "y"]⟩]
    = ["tool_sample"] := by decide

example : slugify "My Proj" = "my_proj" := by decide

example :
    (_create_embeddings_data [⟨some "A", some "T", some ["x", "y"]⟩]).chunks.map Chunk.id
      = [0, 1] := by decide

/-- One install step as read from `manifest.json`: the `action` tag and the
`file` it references (empty when the step carries none). -/
structure Step where
  action : String
  file : String
deriving Repr, DecidableEq

/-- `MatrixKnowledgeLoader._execute_install_step` (`download.py` lines
120-142).  The only fallible work a step performs is the
`load_embeddings` branch's file open + unpickle (lines 127-128); its
outcome at step index `i` is the oracle `eff i`.  `register_metadata` and
`verify_integrity` only print, and an unrecognized action falls through
the if/elif chain with no effect. -/
def _execute_install_step (eff : Nat → Except String Unit) (i : Nat) (step : Step) :
    Except String Unit :=
  if step.action = "load_embeddings" then eff i
  else if step.action = "register_metadata" then Except.ok ()
  else if step.action = "verify_integrity" then Except.ok ()
  else Except.ok ()

/-- The step loop of `_install_module` (`download.py` lines 107-108),
starting at step index `i`.  Returns the indices of the steps that were
executed (in execution order) and the index of the failing step, if any:
a raising step aborts the loop (the exception propagates to the
`try/except` of `_install_module`). -/
def run_install_steps (eff : Nat → Except String Unit) :
    List Step → Nat → List Nat × Option Nat
  | [], _ => ([], none)
  | step :: rest, i =>
      match _execute_install_step eff i step with
      | Except.error _ => ([i], some i)
      | Except.ok _ =>
          let (tr, f) := run_install_steps eff rest (i + 1)
          (i :: tr, f)

/-- Failure oracle for one `_install_module` call: whether
`tarfile.extractall` succeeds (line 92), the parsed
`manifest["install_steps"]` (`none` = `manifest.json` missing, unparsable,
or lacking the key; lines 95-96, 107), whether `metadata.json` is read,
parsed and carries the fields printed at lines 99-104, and the
per-step-index outcome of the `load_embeddings` file open + unpickle. -/
structure InstallWorld where
  extract_ok : Bool
  manifest : Option (List Step)
  metadata_ok : Bool
  eff : Nat → Except String Unit

/-- `MatrixKnowledgeLoader._install_module` (`download.py` lines 83-118).
Returns `(install_success, extract_dir_exists_after_return)`.  The
function `mkdir`s `temp_<skill>` before the `try` block; every exception
inside the block is caught at line 116 and turned into `return False`,
and `shutil.rmtree(extract_dir)` (line 112) runs only at the end of the
non-raising path. -/
def _install_module (w : InstallWorld) : Bool × Bool :=
  if w.extract_ok = false then (false, true)
  else
    match w.manifest with
    | none => (false, true)
    | some steps =>
        if w.metadata_ok = false then (false, true)
        else
          match (run_install_steps w.eff steps 0).2 with
          | some _ => (false, true)
          | none => (true, false)

/-- `MatrixKnowledgeLoader._verify_module` (`download.py` lines 73-81) over
the bytes at `module_path` (`none` = file missing or unreadable, in which
case `_calculate_hash`'s `open` raises and the exception propagates).
Otherwise the digest is computed, printed, and `True` is returned —
nothing is ever compared. -/
def _verify_module (digest : List Nat → String) (contents : Option (List Nat)) :
    Option (String × Bool) :=
  match contents with
  | none => none
  | some bs => some (digest bs, true)

/-- The three possible outcomes of a `download_skill` call: `return True`,
`return False`, or an exception escaping the call. -/
inductive DlResult
  | retTrue
  | retFalse
  | raised
deriving Repr, DecidableEq

/-- Environment of one `download_skill` call: whether a `source_url` was
passed, whether `Path(f"{skill_name}.mkm")` exists (consulted only when no
URL is given, lines 33-38), the bytes at `module_path` when
`_verify_module` hashes it, and the `_install_module` oracle. -/
structure LoaderWorld where
  source_url : Bool
  localExists : Bool
  archiveBytes : Option (List Nat)
  iw : InstallWorld

/-- Python dict assignment `self.installed_modules[skill_name] = {...}`
viewed on the key set: upsert of the module name. -/
def registry_record (reg : List String) (name : String) : List String :=
  if name ∈ reg then reg else reg ++ [name]

/-- `MatrixKnowledgeLoader.download_skill` (`download.py` lines 23-62) with
the installed-modules registry passed explicitly.  Returns the call
outcome and the registry after the call.  With no URL and no local file it
returns `False` (line 38); `_download_from_url` (lines 64-71) always
returns `Path(f"{skill_name}.mkm")` without checking that a file exists
there; `_verify_module` runs outside any `try`, so its exception escapes;
on verification `False` it returns `False` (line 47); the registry is
written only after `_install_module` reports success (lines 53-59). -/
def download_skill (digest : List Nat → String) (skill_name : String)
    (w : LoaderWorld) (reg : List String) : DlResult × List String :=
  if !w.source_url && !w.localExists then (DlResult.retFalse, reg)
  else
    match _verify_module digest w.archiveBytes with
    | none => (DlResult.raised, reg)
    | some (_, ok) =>
        if ok = false then (DlResult.retFalse, reg)
        else
          let (install_success, _) := _install_module w.iw
          if install_success then (DlResult.retTrue, registry_record reg skill_name)
          else (DlResult.retFalse, reg)

/-- State of the destination path `<module_name>.mkm` when
`create_from_memory` ends: no file written by this call, a partially
written archive, or the complete archive. -/
inductive ArchiveState
  | absent
  | halfWritten
  | complete
deriving Repr, DecidableEq

/-- Failure oracle for one `create_from_memory` call: whether each of the
four scratch-file writes succeeds (`metadata.json` line 47-48,
`embeddings.pkl` line 54-55, `sources.json` line 64-65, `manifest.json`
line 80-81), whether the `tarfile` write loop at lines 87-89 completes,
and whether `_calculate_hash`'s read of the finished archive (line 92)
succeeds. -/
structure PackWorld where
  metadataWriteOk : Bool
  embeddingsWriteOk : Bool
  sourcesWriteOk : Bool
  manifestWriteOk : Bool
  archiveWriteOk : Bool
  hashReadOk : Bool
deriving Repr, DecidableEq

/-- `KnowledgePackager.create_from_memory` (`create_module.py` lines
22-99), control flow and on-disk effects.  Returns
`(returned_normally, module_dir_exists_after, destination_state)`.  The
body has no `try/except`: the first raising operation aborts the call and
the exception propagates.  `tarfile.open(mkm_path, "w:gz")` creates the
archive directly at the destination path, so a failure inside the `tar.add`
loop leaves a partial file there; `shutil.rmtree(module_dir)` (line 97)
runs only on the complete success path. -/
def create_from_memory (pw : PackWorld) : Bool × Bool × ArchiveState :=
  if pw.metadataWriteOk = false then (false, true, ArchiveState.absent)
  else if pw.embeddingsWriteOk = false then (false, true, ArchiveState.absent)
  else if pw.sourcesWriteOk = false then (false, true, ArchiveState.absent)
  else if pw.manifestWriteOk = false then (false, true, ArchiveState.absent)
  else if pw.archiveWriteOk = false then (false, true, ArchiveState.halfWritten)
  else if pw.hashReadOk = false then (false, true, ArchiveState.complete)
  else (true, false, ArchiveState.complete)

example :
    _install_module ⟨true, some [⟨"load_embeddings", "embeddings.pkl"⟩], true,
      fun _ => Except.ok ()⟩ = (true, false) := rfl

example :
    run_install_steps (fun i => if i = 1 then Except.error "boom" else Except.ok ())
      [⟨"load_embeddings", "a"⟩, ⟨"load_embeddings", "b"⟩, ⟨"load_embeddings", "c"⟩] 0
      = ([0, 1], some 1) := rfl

lemma encode_obs_spec (entity_name entity_type : String) :
    ∀ (obs : List String) (chunk_id : Nat),
      (encode_obs entity_name entity_type obs chunk_id).1.map Chunk.id
          = List.range' chunk_id obs.length ∧
      (encode_obs entity_name entity_type obs chunk_id).2.map ChunkMeta.chunk_id
          = List.range' chunk_id obs.length ∧
      (encode_obs entity_name entity_type obs chunk_id).1.map Chunk.text = obs ∧
      (encode_obs entity_name entity_type obs chunk_id).1.length = obs.length ∧
      (encode_obs entity_name entity_type obs chunk_id).2.length = obs.length
  | [], chunk_id => by simp [encode_obs]
  | o :: rest, chunk_id => by
      have ih := encode_obs_spec entity_name entity_type rest (chunk_id + 1)
      simp [encode_obs, ih.1, ih.2.1, ih.2.2.1, ih.2.2.2.1, ih.2.2.2.2,
        List.range'_succ]

lemma encode_entities_spec :
    ∀ (es : List Entity) (chunk_id : Nat) (em : List (String × String)),
      (encode_entities es chunk_id em).chunks.map Chunk.id
          = List.range' chunk_id (total_observations es) ∧
      (encode_entities es chunk_id em).metadata.map ChunkMeta.chunk_id
          = List.range' chunk_id (total_observations es) ∧
      (encode_entities es chunk_id em).chunks.map Chunk.text
          = es.flatMap (fun e => e.observations.getD []) ∧
      (encode_entities es chunk_id em).chunks.length = total_observations es ∧
      (encode_entities es chunk_id em).metadata.length = total_observations es
  | [], chunk_id, em => by simp [encode_entities, total_observations]
  | e :: rest, chunk_id, em => by
      have hobs := encode_obs_spec (e.name.getD "unknown") (e.entityType.getD "unknown")
        (e.observations.getD []) chunk_id
      have ih := encode_entities_spec rest (chunk_id + (e.observations.getD []).length)
        (dictInsert em (e.name.getD "unknown") (e.entityType.getD "unknown"))
      have hrange := List.range'_append chunk_id (e.observations.getD []).length
        (total_observations rest) 1
      simp only [one_mul] at hrange
      have htot : total_observations (e :: rest)
          = (e.observations.getD []).length + total_observations rest := by
        simp [total_observations]
      simp only [encode_entities, List.map_append, List.length_append, htot,
        hobs.1, hobs.2.1, hobs.2.2.1, hobs.2.2.2.1, hobs.2.2.2.2,
        ih.1, ih.2.1, ih.2.2.1, ih.2.2.2.1, ih.2.2.2.2, List.flatMap_cons]
      have hr : List.range' chunk_id (e.observations.getD []).length ++
          List.range' (chunk_id + (e.observations.getD []).length) (total_observations rest)
          = List.range' chunk_id
              ((e.observations.getD []).length + total_observations rest) := by
        rw [Nat.add_comm ((e.observations.getD []).length) (total_observations rest)]
        exact hrange
      exact ⟨hr, hr, trivial, trivial, trivial⟩

/-- C5: encoding N entities with M total observations yields exactly M
chunks and M metadata records; `chunks[i].id` runs 0,1,2,… in order (so
`chunks[i].id = i`), `metadata[i].chunk_id` equals `chunks[i].id`, and the
chunk texts are the observations in entity-then-observation traversal
order. -/
theorem embeddings_codec_roundtrip (entities : List Entity) :
    (_create_embeddings_data entities).chunks.length = total_observations entities ∧
    (_create_embeddings_data entities).metadata.length
        = (_create_embeddings_data entities).chunks.length ∧
    (_create_embeddings_data entities).chunks.map Chunk.id
        = List.range (_create_embeddings_data entities).chunks.length ∧
    (_create_embeddings_data entities).metadata.map ChunkMeta.chunk_id
        = (_create_embeddings_data entities).chunks.map Chunk.id ∧
    (_create_embeddings_data entities).chunks.map Chunk.text
        = entities.flatMap (fun e => e.observations.getD []) := by
  have h := encode_entities_spec entities 0 []
  unfold _create_embeddings_data
  refine ⟨h.2.2.2.1, ?_, ?_, ?_, h.2.2.1⟩
  · rw [h.2.2.2.1, h.2.2.2.2]
  · rw [h.2.2.2.1, h.1, List.range_eq_range']
  · rw [h.1, h.2.1]

lemma encode_obs_fields (entity_name entity_type : String) :
    ∀ (obs : List String) (chunk_id : Nat),
      (encode_obs entity_name entity_type obs chunk_id).1.map Chunk.entity
          = List.replicate obs.length entity_name ∧
      (encode_obs entity_name entity_type obs chunk_id).1.map Chunk.type
          = List.replicate obs.length entity_type ∧
      (encode_obs entity_name entity_type obs chunk_id).2.map ChunkMeta.entity_name
          = List.replicate obs.length entity_name ∧
      (encode_obs entity_name entity_type obs chunk_id).2.map ChunkMeta.entity_type
          = List.replicate obs.length entity_type
  | [], chunk_id => by simp [encode_obs]
  | o :: rest, chunk_id => by
      have ih := encode_obs_fields entity_name entity_type rest (chunk_id + 1)
      simp [encode_obs, ih.1, ih.2.1, ih.2.2.1, ih.2.2.2, List.replicate_succ]

/-- C10: the codec and skill extractor are total over entities with missing
keys.  An entity with no `name`/`entityType` key is encoded with the
placeholder `"unknown"` in its chunks, metadata records and `entity_map`
entry; an entity with no `observations` key contributes zero chunks but
still one `entity_map` entry; the skill extractor likewise returns (no
exception) on such entities, using `""` defaults. -/
theorem codec_total_on_missing_fields (obs : List String) (nm ty : String) :
    ((_create_embeddings_data [⟨none, none, some obs⟩]).chunks.map Chunk.entity
        = List.replicate obs.length "unknown" ∧
      (_create_embeddings_data [⟨none, none, some obs⟩]).chunks.map Chunk.type
        = List.replicate obs.length "unknown" ∧
      (_create_embeddings_data [⟨none, none, some obs⟩]).metadata.map ChunkMeta.entity_name
        = List.replicate obs.length "unknown" ∧
      (_create_embeddings_data [⟨none, none, some obs⟩]).entity_map
        = [("unknown", "unknown")]) ∧
    ((_create_embeddings_data [⟨some nm, some ty, none⟩]).chunks = [] ∧
      (_create_embeddings_data [⟨some nm, some ty, none⟩]).metadata = [] ∧
      (_create_embeddings_data [⟨some nm, some ty, none⟩]).entity_map = [(nm, ty)]) ∧
    _extract_skills [⟨none, none, some obs⟩] = [] ∧
    _extract_skills [⟨none, some "Tool_Reference", none⟩] = ["tool_"] := by
  have hf := encode_obs_fields "unknown" "unknown" obs 0
  refine ⟨⟨?_, ?_, ?_, ?_⟩, ⟨?_, ?_, ?_⟩, ?_, ?_⟩ <;>
    simp [_create_embeddings_data, encode_entities, encode_obs, dictInsert,
      _extract_skills, extract_skills_loop, setAdd, pyLower,
      hf.1, hf.2.1, hf.2.2.1, hf.2.2.2]

lemma setAdd_mem (s : List String) (x y : String) :
    y ∈ setAdd s x ↔ y ∈ s ∨ y = x := by
  unfold setAdd
  by_cases h : x ∈ s
  · simp only [if_pos h]
    constructor
    · exact Or.inl
    · rintro (hy | rfl)
      · exact hy
      · exact h
  · simp [if_neg h]

lemma setAdd_nodup (s : List String) (x : String) (h : s.Nodup) :
    (setAdd s x).Nodup := by
  unfold setAdd
  by_cases hx : x ∈ s
  · simpa [if_pos hx] using h
  · simp [if_neg hx, List.nodup_append, h, hx]

lemma extract_loop_step (skills : List String) (e : Entity) (rest : List Entity) :
    extract_skills_loop skills (e :: rest)
      = extract_skills_loop
          (match skillOf e with
            | some sk => setAdd skills sk
            | none => skills) rest := by
  simp only [extract_skills_loop, skillOf]
  split_ifs <;> rfl

lemma extract_loop_mem :
    ∀ (es : List Entity) (acc : List String) (x : String),
      x ∈ extract_skills_loop acc es ↔ x ∈ acc ∨ ∃ e ∈ es, skillOf e = some x
  | [], acc, x => by simp [extract_skills_loop]
  | e :: rest, acc, x => by
      rw [extract_loop_step]
      rcases h : skillOf e with _ | sk
      · simp only [h]
        rw [extract_loop_mem rest acc x]
        simp [List.exists_mem_cons_iff, h]
      · simp only [h]
        rw [extract_loop_mem rest (setAdd acc sk) x, setAdd_mem]
        simp only [List.exists_mem_cons_iff, h, Option.some.injEq]
        constructor
        · rintro ((hy | rfl) | hr)
          · exact Or.inl hy
          · exact Or.inr (Or.inl rfl)
          · exact Or.inr (Or.inr hr)
        · rintro (hy | (rfl | hr))
          · exact Or.inl (Or.inl hy)
          · exact Or.inl (Or.inr rfl)
          · exact Or.inr hr

lemma extract_loop_nodup :
    ∀ (es : List Entity) (acc : List String), acc.Nodup → (extract_skills_loop acc es).Nodup
  | [], _, h => h
  | e :: rest, acc, h => by
      rw [extract_loop_step]
      rcases hs : skillOf e with _ | sk
      · exact extract_loop_nodup rest acc h
      · exact extract_loop_nodup rest _ (setAdd_nodup acc sk h)

/-- C7: `skills_provided` is derived exactly per entity type —
`Active_Project` gives `project_<slug>`, `Tool_Reference` gives
`tool_<lowercased name>`, `System_Protocol` gives `protocol_<slug>`, any
other type contributes nothing (see `skillOf`) — duplicates are collapsed
(the result is duplicate-free), and the entity
`{name: "Sample", entityType: "Tool_Reference"}` yields `tool_sample`. -/
theorem skills_provided_spec (entities : List Entity) (x : String) :
    (x ∈ _extract_skills entities ↔ ∃ e ∈ entities, skillOf e = some x) ∧
    (_extract_skills entities).Nodup ∧
    "tool_sample" ∈ _extract_skills
      [⟨some "Sample", some "Tool_Reference", some ["x", "y"]⟩] := by
  refine ⟨?_, ?_, by decide⟩
  · rw [_extract_skills, extract_loop_mem]
    simp
  · exact extract_loop_nodup entities [] List.nodup_nil

lemma run_steps_cons_ok (eff : Nat → Except String Unit) (i : Nat) (s : Step)
    (rest : List Step) (h : _execute_install_step eff i s = Except.ok ()) :
    run_install_steps eff (s :: rest) i
      = (i :: (run_install_steps eff rest (i + 1)).1,
         (run_install_steps eff rest (i + 1)).2) := by
  simp only [run_install_steps, h]

lemma run_steps_cons_err (eff : Nat → Except String Unit) (i : Nat) (s : Step)
    (rest : List Step) (e : String)
    (h : _execute_install_step eff i s = Except.error e) :
    run_install_steps eff (s :: rest) i = ([i], some i) := by
  simp only [run_install_steps, h]

lemma run_steps_ok :
    ∀ (steps : List Step) (eff : Nat → Except String Unit) (i : Nat),
      (run_install_steps eff steps i).2 = none →
      (run_install_steps eff steps i).1 = List.range' i steps.length
  | [], eff, i => by simp [run_install_steps]
  | s :: rest, eff, i => by
      intro h2
      rcases he : _execute_install_step eff i s with e | ⟨⟩
      · rw [run_steps_cons_err eff i s rest e he] at h2
        simp at h2
      · rw [run_steps_cons_ok eff i s rest he] at h2 ⊢
        simp only at h2
        rw [List.length_cons, List.range'_succ]
        simp only [List.cons.injEq, true_and]
        exact run_steps_ok rest eff (i + 1) h2

lemma run_steps_err :
    ∀ (steps : List Step) (eff : Nat → Except String Unit) (i k : Nat),
      (run_install_steps eff steps i).2 = some k →
      i ≤ k ∧ k < i + steps.length ∧
        (run_install_steps eff steps i).1 = List.range' i (k + 1 - i)
  | [], eff, i, k => by simp [run_install_steps]
  | s :: rest, eff, i, k => by
      intro h2
      rcases he : _execute_install_step eff i s with e | ⟨⟩
      · rw [run_steps_cons_err eff i s rest e he] at h2 ⊢
        simp only [Option.some.injEq] at h2
        subst h2
        refine ⟨le_refl i, by simp only [List.length_cons]; omega, ?_⟩
        simp
      · rw [run_steps_cons_ok eff i s rest he] at h2 ⊢
        simp only at h2
        obtain ⟨hik, hlt, htr⟩ := run_steps_err rest eff (i + 1) k h2
        refine ⟨by omega, by simp only [List.length_cons]; omega, ?_⟩
        rw [htr]
        have hlen : k + 1 - (i + 1) = k - i := by omega
        have hk1 : k + 1 - i = (k - i) + 1 := by omega
        rw [hlen, hk1, List.range'_succ]

/-- C3: install steps run exactly in manifest order — the executed-step
trace is an initial segment of indices in increasing order; on full
success it is all of `0..len-1`, and when step `k` fails the trace is
exactly `0..k`: every step before `k` executed and no step after `k`
executed. -/
theorem install_steps_in_order (eff : Nat → Except String Unit) (steps : List Step) :
    ((run_install_steps eff steps 0).2 = none →
        (run_install_steps eff steps 0).1 = List.range steps.length) ∧
    ∀ k, (run_install_steps eff steps 0).2 = some k →
        k < steps.length ∧ (run_install_steps eff steps 0).1 = List.range (k + 1) := by
  constructor
  · intro h
    rw [run_steps_ok steps eff 0 h, List.range_eq_range']
  · intro k h
    obtain ⟨-, hlt, htr⟩ := run_steps_err steps eff 0 k h
    refine ⟨by omega, ?_⟩
    rw [htr, List.range_eq_range', Nat.sub_zero]

/-- Witness for C3: a manifest `[A, B, C]` with a faulty sink that fails
exactly on the second step: the failing index is below the length and the
executed trace is `[0, 1]` — `A` ran, `C` did not. -/
theorem install_steps_in_order_witness :
    1 < ([⟨"load_embeddings", "a"⟩, ⟨"load_embeddings", "b"⟩,
          ⟨"load_embeddings", "c"⟩] : List Step).length ∧
    (run_install_steps
        (fun i => if i = 1 then Except.error "sink failure" else Except.ok ())
        [⟨"load_embeddings", "a"⟩, ⟨"load_embeddings", "b"⟩, ⟨"load_embeddings", "c"⟩]
        0).1 = List.range 2 :=
  (install_steps_in_order
      (fun i => if i = 1 then Except.error "sink failure" else Except.ok ())
      [⟨"load_embeddings", "a"⟩, ⟨"load_embeddings", "b"⟩,
        ⟨"load_embeddings", "c"⟩]).2 1 rfl

lemma exec_always_ok (eff : Nat → Except String Unit)
    (heff : ∀ j, eff j = Except.ok ()) (i : Nat) (s : Step) :
    _execute_install_step eff i s = Except.ok () := by
  unfold _execute_install_step
  split_ifs <;> simp [heff]

lemma run_steps_all_ok (eff : Nat → Except String Unit)
    (heff : ∀ j, eff j = Except.ok ()) :
    ∀ (steps : List Step) (i : Nat),
      run_install_steps eff steps i = (List.range' i steps.length, none)
  | [], i => by simp [run_install_steps]
  | s :: rest, i => by
      have hrec := run_steps_all_ok eff heff rest (i + 1)
      rw [run_steps_cons_ok eff i s rest (exec_always_ok eff heff i s), hrec]
      simp [List.range'_succ]

/-- C4: a step whose `action` is none of `load_embeddings`,
`register_metadata`, `verify_integrity` falls through the if/elif chain —
it raises nothing and has no effect — and with every other step
succeeding, the whole manifest still executes (trace is the full index
range) and `_install_module` reports success. -/
theorem unknown_action_skipped (eff : Nat → Except String Unit) (i : Nat) (s : Step)
    (pre post : List Step)
    (h1 : s.action ≠ "load_embeddings") (h2 : s.action ≠ "register_metadata")
    (h3 : s.action ≠ "verify_integrity")
    (heff : ∀ j, eff j = Except.ok ()) :
    _execute_install_step eff i s = Except.ok () ∧
    run_install_steps eff (pre ++ s :: post) 0
      = (List.range (pre ++ s :: post).length, none) ∧
    _install_module ⟨true, some (pre ++ s :: post), true, eff⟩ = (true, false) := by
  have hskip : _execute_install_step eff i s = Except.ok () := by
    unfold _execute_install_step
    rw [if_neg h1, if_neg h2, if_neg h3]
  refine ⟨hskip, ?_, ?_⟩
  · rw [run_steps_all_ok eff heff (pre ++ s :: post) 0, List.range_eq_range']
  · simp [_install_module, run_steps_all_ok eff heff]

/-- Witness for C4: manifest `[load_embeddings, custom_action,
register_metadata]` with an always-succeeding sink — the unknown step is a
no-op, the trace covers all three steps, and the install succeeds. -/
theorem unknown_action_skipped_witness :
    _execute_install_step (fun _ => Except.ok ()) 1 ⟨"custom_action", ""⟩
        = Except.ok () ∧
    run_install_steps (fun _ => Except.ok ())
        ([⟨"load_embeddings", "embeddings.pkl"⟩] ++ ⟨"custom_action", ""⟩ ::
          [⟨"register_metadata", "metadata.json"⟩]) 0
      = (List.range ([⟨"load_embeddings", "embeddings.pkl"⟩] ++ ⟨"custom_action", ""⟩ ::
          [⟨"register_metadata", "metadata.json"⟩] : List Step).length, none) ∧
    _install_module ⟨true,
        some ([⟨"load_embeddings", "embeddings.pkl"⟩] ++ ⟨"custom_action", ""⟩ ::
          [⟨"register_metadata", "metadata.json"⟩]),
        true, fun _ => Except.ok ()⟩ = (true, false) :=
  unknown_action_skipped (fun _ => Except.ok ()) 1 ⟨"custom_action", ""⟩
    [⟨"load_embeddings", "embeddings.pkl"⟩] [⟨"register_metadata", "metadata.json"⟩]
    (by decide) (by decide) (by decide) (fun _ => rfl)

/-- C1 counterexample: a failed install (tar extraction raises) and a
failed packaging (the `metadata.json` write raises) both return with the
scratch directory still existing (second returned component `true`) —
refuting "no scratch directory created by that operation survives after
the call returns" on the failure paths: `shutil.rmtree` sits only on the
success path in both functions. -/
theorem scratch_survives_failure_counterexample :
    _install_module ⟨false, none, false, fun _ => Except.ok ()⟩ = (false, true) ∧
    create_from_memory ⟨false, true, true, true, true, true⟩
      = (false, true, ArchiveState.absent) :=
  ⟨rfl, rfl⟩

/-- C1 amended: the scratch directory (the installer's extract directory,
the packager's module directory) is gone when the call returns if and only
if the operation fully succeeded; on every injected failure it survives. -/
theorem scratch_removed_iff_success (w : InstallWorld) (pw : PackWorld) :
    (_install_module w).2 = !(_install_module w).1 ∧
    (create_from_memory pw).2.1 = !(create_from_memory pw).1 := by
  constructor
  · rcases w with ⟨eo, mf, mo, eff⟩
    rcases mf with _ | steps
    · cases eo <;> simp [_install_module]
    · cases eo <;> cases mo <;> simp [_install_module] <;>
        rcases h : (run_install_steps eff steps 0).2 with _ | k <;> simp [h]
  · rcases pw with ⟨a, b, c, d, e, f⟩
    cases a <;> cases b <;> cases c <;> cases d <;> cases e <;> cases f <;> rfl

/-- C2 counterexample: `download_skill` with a `source_url` whose fetch
yields no file at `Path(f"{skill_name}.mkm")` — `_verify_module` calls
`_calculate_hash`, whose `open` raises, outside any `try`, so the
exception escapes `download_skill` instead of a `False` return. -/
theorem download_skill_raises_counterexample :
    (download_skill (fun _ => "") "skill"
        ⟨true, false, none, ⟨true, none, true, fun _ => Except.ok ()⟩⟩ []).1
      = DlResult.raised :=
  rfl

/-- C2 amended: `download_skill` returns a failure value (`False`) for a
missing local module and for every extraction / parse / install-step
failure (those are caught inside `_install_module`), but an exception
escapes the call exactly when the archive file at `module_path` is missing
or unreadable at the integrity-verification stage (e.g. a URL whose fetch
produced no file). -/
theorem download_skill_raises_iff (digest : List Nat → String) (skill_name : String)
    (w : LoaderWorld) (reg : List String) :
    (download_skill digest skill_name w reg).1 = DlResult.raised ↔
      ((w.source_url = true ∨ w.localExists = true) ∧ w.archiveBytes = none) := by
  rcases w with ⟨su, le, ab, iw⟩
  cases su <;> cases le <;> rcases ab with _ | bs <;>
      simp [download_skill, _verify_module] <;>
    · rcases h : _install_module iw with ⟨s, d⟩
      cases s <;> simp [h]

/-- C6: the installed-modules registry is written only by a fully
successful install — on every failing outcome (`False` return or escaped
exception) the registry after the call is exactly the registry before. -/
theorem registry_unchanged_unless_success (digest : List Nat → String)
    (skill_name : String) (w : LoaderWorld) (reg : List String) :
    (download_skill digest skill_name w reg).2 =
      (if (download_skill digest skill_name w reg).1 = DlResult.retTrue
        then registry_record reg skill_name else reg) := by
  rcases w with ⟨su, le, ab, iw⟩
  cases su <;> cases le <;> rcases ab with _ | bs <;>
      simp [download_skill, _verify_module] <;>
    · rcases h : _install_module iw with ⟨s, d⟩
      cases s <;> simp [h]

/-- C8 counterexample: a failure inside the `tar.add` loop (all scratch
writes succeeded, the archive write raises partway) returns with a
half-written archive at the destination `<module_name>.mkm` — the archive
is opened directly at the final path, not written to a temp path and
moved. -/
theorem half_written_archive_counterexample :
    create_from_memory ⟨true, true, true, true, false, true⟩
      = (false, true, ArchiveState.halfWritten) :=
  rfl

/-- C8 amended: a failure before the archive-writing step leaves nothing
at the destination path, a failure during the `tarfile` write loop leaves
a half-written archive there, and any call in which the archive write
completed (including a success) leaves the complete archive. -/
theorem destination_archive_state (pw : PackWorld) :
    ((create_from_memory pw).2.2 = ArchiveState.halfWritten ↔
        (pw.metadataWriteOk = true ∧ pw.embeddingsWriteOk = true ∧
          pw.sourcesWriteOk = true ∧ pw.manifestWriteOk = true ∧
          pw.archiveWriteOk = false)) ∧
    ((create_from_memory pw).2.2 = ArchiveState.absent ↔
        (pw.metadataWriteOk = false ∨ pw.embeddingsWriteOk = false ∨
          pw.sourcesWriteOk = false ∨ pw.manifestWriteOk = false)) ∧
    ((create_from_memory pw).1 = false ∨
        (create_from_memory pw).2.2 = ArchiveState.complete) := by
  rcases pw with ⟨a, b, c, d, e, f⟩
  cases a <;> cases b <;> cases c <;> cases d <;> cases e <;> cases f <;> decide

/-- C9: `_verify_module` computes the archive's digest and returns `True`
for every readable file, and on any input it either raises (file missing /
unreadable) or reports success — there is no input on which verification
returns `False`, since the digest is never compared to a reference. -/
theorem verify_module_always_succeeds (digest : List Nat → String) (bs : List Nat)
    (c : Option (List Nat)) :
    _verify_module digest (some bs) = some (digest bs, true) ∧
    _verify_module digest c = c.map (fun b => (digest b, true)) := by
  refine ⟨rfl, ?_⟩
  rcases c with _ | b <;> rfl
